import Mathlib

/-
Shallow embedding of the SSE streaming client of this repository.

Sources:
  - services/backendService.ts (src/unnamed/part_002):
    BackendService.streamAgentResponse, BackendService.executeSql
  - App.tsx (src/unnamed/part_000): handleSendMessage consumer logic
  - types.ts (src/unnamed/part_003): SupabaseConfig, ExecutionResult,
    ToolStatus, Message

Text is modelled as List Char (the JS code operates on decoded text; the
TextDecoder byte-to-text step is outside the claims under study, all test
inputs are ASCII).  JS string operations are embedded directly:
split('\n'), startsWith, substring(n) (= List.drop n), trim().
JSON.parse is a parameter of the line processor (the claims about the
stream machinery hold for every parse function); a concrete executable
parser for flat JSON objects with string and integer values is provided
for evaluating the machinery on concrete inputs.
-/

/-- Whitespace characters removed by the JS String.prototype.trim model
(ASCII subset; the concrete inputs under study use only these). -/
def isJsSpace (c : Char) : Bool :=
  c == ' ' || c == '\t' || c == '\n' || c == '\r' || c == '\x0b' || c == '\x0c'

/-- Model of JS String.prototype.trim on character lists. -/
def jsTrim (l : List Char) : List Char :=
  ((l.dropWhile isJsSpace).reverse.dropWhile isJsSpace).reverse

/-- Model of JS String.prototype.trim on strings. -/
def strTrim (s : String) : String :=
  String.mk (jsTrim s.data)

/-- Model of JS str.split('\n'): always returns at least one segment;
a trailing newline yields a trailing empty segment. -/
def splitOnNl : List Char → List (List Char)
  | [] => [[]]
  | c :: rest =>
    if c = '\n' then [] :: splitOnNl rest
    else
      match splitOnNl rest with
      | [] => [[c]]
      | l :: ls => (c :: l) :: ls

/-- Payload of one SSE data frame, per the SSEEvent interface of
backendService.ts.  Absent JSON fields are none. -/
structure Payload where
  textDelta : Option String := none
  fullText : Option String := none
  sql : Option String := none
  finalText : Option String := none
  finalSql : Option String := none
  message : Option String := none
  name : Option String := none
  status : Option String := none
  chatId : Option String := none
  usedChars : Option Int := none
  capChars : Option Int := none
  usagePct : Option Int := none
  newChatId : Option String := none
deriving DecidableEq

/-- JS truthiness of an optional string field: present and non-empty. -/
def truthy : Option String → Bool
  | none => false
  | some s => !(s == "")

/-- Tag inference of streamAgentResponse (backendService.ts lines 216-231),
applied when no event label is pending.  Field-by-field transcription:
finalText and sql and usedChars are tested for presence (`!== undefined`),
message, textDelta, name, status and newChatId for JS truthiness. -/
def inferTag (d : Payload) : String :=
  if d.finalText.isSome then "done"
  else if truthy d.message && !(truthy d.textDelta) then "error"
  else if d.sql.isSome && d.textDelta.isNone then "sql"
  else if truthy d.name && truthy d.status then "tool"
  else if d.usedChars.isSome then "context"
  else if truthy d.newChatId then "chat_rollover"
  else "delta"

/-- Tag inference as worded by the specification (presence-based: a field
participates as soon as it is present, empty strings included).  Stated
for comparison with inferTag, which is transcribed from the code. -/
def specInferTag (d : Payload) : String :=
  if d.finalText.isSome then "done"
  else if d.message.isSome && d.textDelta.isNone then "error"
  else if d.sql.isSome && d.textDelta.isNone then "sql"
  else if d.name.isSome && d.status.isSome then "tool"
  else if d.usedChars.isSome then "context"
  else if d.newChatId.isSome then "chat_rollover"
  else "delta"

/-- Dispatch of `currentEvent || 'delta'` plus the inference fallback
(lines 215-231): a pending label is used when truthy, otherwise the tag
is inferred from the payload shape. -/
def resolveTag (cur : Option String) (d : Payload) : String :=
  match cur with
  | some s => if s = "" then inferTag d else s
  | none => inferTag d

/-- One iteration of the `for (const line of lines)` loop of
streamAgentResponse (lines 201-239).  State: the pending event label and
the events emitted so far.  An `event: ` line records its trimmed
remainder as pending label; a `data: ` line with non-empty trimmed
payload that deserializes successfully emits one event and clears the
label; a failed deserialization leaves the state unchanged; all other
lines are ignored. -/
def procLine (parse : List Char → Option Payload)
    (st : Option String × List (String × Payload)) (line : List Char) :
    Option String × List (String × Payload) :=
  let cur := st.1
  let out := st.2
  if ("event: ".data).isPrefixOf line then
    (some (String.mk (jsTrim (line.drop 7))), out)
  else if ("data: ".data).isPrefixOf line then
    let dataStr := jsTrim (line.drop 6)
    if dataStr = [] then (cur, out)
    else
      match parse dataStr with
      | some d => (none, out ++ [(resolveTag cur d, d)])
      | none => (cur, out)
  else (cur, out)

/-- Processing of one combined buffer value (buffer + chunk) per loop
iteration of streamAgentResponse (lines 195-239): split on the newline,
retain the last segment as the new residual buffer (`lines.pop() || ''`),
fold the line loop over the complete segments with the pending label
initialized to null (`let currentEvent = null`, line 199). -/
def processBuffer (parse : List Char → Option Payload) (s : List Char) :
    List Char × List (String × Payload) :=
  let parts := splitOnNl s
  ((parts.getLast?).getD [], ((parts.dropLast).foldl (procLine parse) (none, [])).2)

/-- One reader.read() iteration: `buffer += chunk` then line processing. -/
def processChunk (parse : List Char → Option Payload) (buf chunk : List Char) :
    List Char × List (String × Payload) :=
  processBuffer parse (buf ++ chunk)

/-- The whole read loop over a sequence of decoded chunks, starting from
the empty residual buffer; returns the final residual buffer and the
ordered sequence of emitted (tag, payload) pairs.  The residual buffer
left at end-of-stream is discarded, as in the source. -/
def processStream (parse : List Char → Option Payload) (chunks : List (List Char)) :
    List Char × List (String × Payload) :=
  chunks.foldl
    (fun st c =>
      let r := processChunk parse st.1 c
      (r.1, st.2 ++ r.2))
    ([], [])

/-- Ordered sequence of (tag, payload) pairs dispatched for a chunk
sequence. -/
def streamEvents (parse : List Char → Option Payload) (chunks : List (List Char)) :
    List (String × Payload) :=
  (processStream parse chunks).2

/-- Observable outcome of one streamAgentResponse call: the events that
were yielded, the error that terminated the call (none on normal
completion), and whether reader.releaseLock() was invoked. -/
structure StreamOutcome where
  events : List (String × Payload)
  terminal : Option String
  releaseCalled : Bool
deriving DecidableEq

/-- Control-flow model of streamAgentResponse (lines 169-244).  The
environment is explicit: respOk and status model the fetch response,
hasBody whether response.body is readable, chunks the decoded reads the
loop consumed before it stopped (a caller abandoning early simply
consumes a shorter list), readErr an error that ended the read loop, and
releaseErr an error raised by reader.releaseLock() itself.  A non-ok
response or a missing body throws before the reader is acquired, so no
event is yielded and release is never called.  Otherwise the loop runs
inside try/finally: releaseLock is always invoked, and by JS semantics an
error raised in the finally block replaces the outcome of the loop (the
source wraps releaseLock in no catch). -/
def streamAgentResponse (parse : List Char → Option Payload) (respOk : Bool)
    (status : Nat) (hasBody : Bool) (chunks : List (List Char))
    (readErr : Option String) (releaseErr : Option String) : StreamOutcome :=
  if respOk = false then
    { events := [], terminal := some ("HTTP error! status: " ++ toString status),
      releaseCalled := false }
  else if hasBody = false then
    { events := [], terminal := some "No response body", releaseCalled := false }
  else
    { events := streamEvents parse chunks,
      terminal :=
        match releaseErr with
        | some e => some e
        | none => readErr,
      releaseCalled := true }

/-- Supabase connection settings (types.ts). -/
structure SupabaseConfig where
  projectRef : String
  accessToken : String
deriving DecidableEq

/-- Result of a SQL execution request (types.ts; the optional raw data
echo field is not referenced by any claim and is omitted). -/
structure ExecutionResult where
  success : Bool
  message : String
deriving DecidableEq

/-- JSON body of the execute-sql response as the code reads it: the
detail and message fields consulted on a non-2xx status, and the
success/message pair returned directly on a 2xx status.  The empty
string models an absent (JS-falsy) field. -/
structure SqlRespBody where
  success : Bool := false
  message : String := ""
  detail : String := ""
deriving DecidableEq

/-- Environment of one executeSql call: either fetch (or response.json())
rejected with a message, or a response with the given ok flag, status and
body-deserialization outcome arrived. -/
inductive HttpOutcome where
  | netFail (msg : String)
  | resp (ok : Bool) (status : Nat) (body : Except String SqlRespBody)

/-- Message returned when the Supabase credentials are missing. -/
def missingCredsMsg : String := "Supabase Project Ref or Access Token is missing."

/-- Fallback message of the executeSql catch block. -/
def backendFallbackMsg : String :=
  "An unexpected error occurred while communicating with the backend."

/-- Model of BackendService.executeSql (backendService.ts lines 249-290).
Returns the resolved ExecutionResult and whether a network request was
issued.  The guard uses JS truthiness on the credential strings (the
empty string is the only falsy string).  Everything after the guard runs
inside try/catch, so a rejected fetch, a body that fails to deserialize
(response.json() runs before the ok check) and a non-2xx status all
resolve to a success=false result; a 2xx response body is returned
directly. -/
def executeSql (config : SupabaseConfig) (sqlText : String) (outcome : HttpOutcome) :
    ExecutionResult × Bool :=
  if config.projectRef = "" ∨ config.accessToken = "" then
    ({ success := false, message := missingCredsMsg }, false)
  else
    match outcome with
    | HttpOutcome.netFail m =>
      ({ success := false, message := if m = "" then backendFallbackMsg else m }, true)
    | HttpOutcome.resp ok status body =>
      match body with
      | Except.error em =>
        ({ success := false, message := if em = "" then backendFallbackMsg else em }, true)
      | Except.ok b =>
        if ok = false then
          ({ success := false,
             message :=
               if b.detail ≠ "" then b.detail
               else if b.message ≠ "" then b.message
               else "Error " ++ toString status }, true)
        else ({ success := b.success, message := b.message }, true)

/-- Tool activity entry (types.ts): tool name, status string, arrival
timestamp. -/
structure ToolStatus where
  name : String
  status : String
  timestamp : Nat
deriving DecidableEq

/-- State update applied by a tool event (App.tsx lines 336-348, both
branches): remove every entry with the same tool name, then append the
new entry. -/
def applyToolEvent (prev : List ToolStatus) (ts : ToolStatus) : List ToolStatus :=
  (prev.filter fun t => t.name != ts.name) ++ [ts]

/-- Removal scheduling of the same handler: a start entry is kept with no
timer; any other status schedules a removal 2000 ms after arrival. -/
def toolRemovalSchedule (now : Nat) (ts : ToolStatus) : Option Nat :=
  if ts.status = "start" then none else some (now + 2000)

/-- The setTimeout callback of App.tsx line 344: drop the entries whose
timestamp matches the scheduled one. -/
def fireToolRemoval (cur : List ToolStatus) (stamp : Nat) : List ToolStatus :=
  cur.filter fun t => t.timestamp != stamp

/-- One transcript message (types.ts). -/
structure Message where
  role : String
  text : String
deriving DecidableEq

/-- Model of `newMessages[newMessages.length - 1].text = t`. -/
def setLastText : List Message → String → List Message
  | [], _ => []
  | m :: [], t => { m with text := t } :: []
  | m :: rest, t => m :: setLastText rest t

/-- State update applied by a delta event carrying fullText (App.tsx
lines 374-383): trim the text; if the trimmed text or the previously
stored text is non-empty (JS truthiness of `cleanedText || lastFullText`),
replace the trailing message text and remember the trimmed text;
otherwise leave both unchanged. -/
def applyDelta (messages : List Message) (lastFullText : String) (fullText : String) :
    List Message × String :=
  let cleanedText := strTrim fullText
  if cleanedText ≠ "" ∨ lastFullText ≠ "" then
    (setLastText messages cleanedText, cleanedText)
  else
    (messages, lastFullText)

/-- Opening brace character, written by code point to keep it out of
string literals. -/
def lbraceChar : Char := Char.ofNat 123

/-- Closing brace character. -/
def rbraceChar : Char := Char.ofNat 125

/-- JSON scalar values needed by the SSE payloads: strings and integers. -/
inductive Jval where
  | str (s : String)
  | num (n : Int)
deriving DecidableEq

/-- Scan of a JSON string body up to the closing quote (escape sequences
are outside this fragment and make the scan fail). -/
def scanStr : List Char → Option (List Char × List Char)
  | [] => none
  | c :: rest =>
    if c == '"' then some ([], rest)
    else if c == '\\' then none
    else
      match scanStr rest with
      | some p => some (c :: p.1, p.2)
      | none => none

/-- Digit run folded into a Nat. -/
def digitsToNat (ds : List Char) : Nat :=
  ds.foldl (fun a c => a * 10 + (c.toNat - 48)) 0

/-- Integer literal scan (optional leading minus, then digits). -/
def parseNum (l : List Char) : Option (Int × List Char) :=
  match l with
  | [] => none
  | c :: rest =>
    if c == '-' then
      let p := rest.span fun d => d.isDigit
      if p.1 = [] then none else some (-(Int.ofNat (digitsToNat p.1)), p.2)
    else
      let p := l.span fun d => d.isDigit
      if p.1 = [] then none else some (Int.ofNat (digitsToNat p.1), p.2)

/-- One JSON scalar value. -/
def parseVal (l : List Char) : Option (Jval × List Char) :=
  match l with
  | [] => none
  | c :: rest =>
    if c == '"' then
      match scanStr rest with
      | some p => some (Jval.str (String.mk p.1), p.2)
      | none => none
    else
      match parseNum l with
      | some p => some (Jval.num p.1, p.2)
      | none => none

/-- Comma-separated key/value pairs up to the closing brace; fuel-driven
recursion bounded by the input length. -/
def parsePairs : Nat → List Char → Option (List (String × Jval) × List Char)
  | 0, _ => none
  | Nat.succ fuel, l =>
    match l with
    | [] => none
    | c :: rest =>
      if c == '"' then
        match scanStr rest with
        | none => none
        | some kp =>
          match kp.2 with
          | [] => none
          | c2 :: rem2 =>
            if c2 == ':' then
              match parseVal rem2 with
              | none => none
              | some vp =>
                match vp.2 with
                | [] => none
                | c3 :: rem3 =>
                  if c3 == ',' then
                    match parsePairs fuel rem3 with
                    | some pp => some ((String.mk kp.1, vp.1) :: pp.1, pp.2)
                    | none => none
                  else if c3 == rbraceChar then
                    some ((String.mk kp.1, vp.1) :: [], rem3)
                  else none
            else none
      else none

/-- Executable model of JSON.parse on the flat-object fragment exercised
by the SSE payloads: an object of string/integer fields, no nesting, no
escapes, no interior whitespace.  Inputs outside the fragment fail. -/
def jsonParse (s : List Char) : Option (List (String × Jval)) :=
  match s with
  | [] => none
  | c :: rest =>
    if c == lbraceChar then
      if rest == (rbraceChar :: []) then some []
      else
        match parsePairs (rest.length + 1) rest with
        | some pr => if pr.2 == ([] : List Char) then some pr.1 else none
        | none => none
    else none

/-- Assignment of one parsed JSON field into the typed payload; keys
outside the SSEEvent interface and type mismatches are ignored, later
keys overwrite earlier ones as in JS. -/
def setField (p : Payload) (k : String) (v : Jval) : Payload :=
  match v with
  | Jval.str s =>
    if k = "textDelta" then { p with textDelta := some s }
    else if k = "fullText" then { p with fullText := some s }
    else if k = "sql" then { p with sql := some s }
    else if k = "finalText" then { p with finalText := some s }
    else if k = "finalSql" then { p with finalSql := some s }
    else if k = "message" then { p with message := some s }
    else if k = "name" then { p with name := some s }
    else if k = "status" then { p with status := some s }
    else if k = "chatId" then { p with chatId := some s }
    else if k = "newChatId" then { p with newChatId := some s }
    else p
  | Jval.num n =>
    if k = "usedChars" then { p with usedChars := some n }
    else if k = "capChars" then { p with capChars := some n }
    else if k = "usagePct" then { p with usagePct := some n }
    else p

/-- Concrete parse function used to evaluate the stream machinery on
test inputs: JSON.parse restricted to the flat-object fragment, followed
by the field extraction the code performs on the parsed value. -/
def parseData (s : List Char) : Option Payload :=
  (jsonParse s).map fun ps => ps.foldl (fun p kv => setField p kv.1 kv.2) {}

theorem isPrefixOf_exists {p l : List Char} (h : p.isPrefixOf l = true) :
    ∃ t, l = p ++ t := by
  obtain ⟨t, ht⟩ := List.isPrefixOf_iff_prefix.mp h
  exact ⟨t, ht.symm⟩

theorem ev_not_prefix_data (t : List Char) :
    (("event: ".data).isPrefixOf (("data: ".data) ++ t)) = false := rfl

theorem dp_prefix_append (t : List Char) :
    (("data: ".data).isPrefixOf (("data: ".data) ++ t)) = true :=
  List.isPrefixOf_iff_prefix.mpr ⟨t, rfl⟩

theorem ev_prefix_append (t : List Char) :
    (("event: ".data).isPrefixOf (("event: ".data) ++ t)) = true :=
  List.isPrefixOf_iff_prefix.mpr ⟨t, rfl⟩

theorem drop_six_data (t : List Char) : (("data: ".data) ++ t).drop 6 = t := rfl

theorem procLine_event (parse : List Char → Option Payload)
    (st : Option String × List (String × Payload)) (line : List Char)
    (h : (("event: ".data).isPrefixOf line) = true) :
    procLine parse st line = (some (String.mk (jsTrim (line.drop 7))), st.2) := by
  simp [procLine, h]

theorem procLine_data_some (parse : List Char → Option Payload)
    (st : Option String × List (String × Payload)) (t : List Char) (d : Payload)
    (hne : jsTrim t ≠ []) (hp : parse (jsTrim t) = some d) :
    procLine parse st (("data: ".data) ++ t) =
      (none, st.2 ++ [(resolveTag st.1 d, d)]) := by
  simp [procLine, ev_not_prefix_data, dp_prefix_append, drop_six_data, hne, hp]

theorem procLine_data_stuck (parse : List Char → Option Payload)
    (st : Option String × List (String × Payload)) (t : List Char)
    (hp : parse (jsTrim t) = none) :
    procLine parse st (("data: ".data) ++ t) = st := by
  by_cases hne : jsTrim t = []
  · simp [procLine, ev_not_prefix_data, dp_prefix_append, drop_six_data, hne]
  · simp [procLine, ev_not_prefix_data, dp_prefix_append, drop_six_data, hne, hp]

theorem splitOnNl_ne_nil (l : List Char) : splitOnNl l ≠ [] := by
  cases l with
  | nil => simp [splitOnNl]
  | cons c rest =>
    unfold splitOnNl
    by_cases hc : c = '\n'
    · simp [hc]
    · simp only [hc, if_false]
      cases h : splitOnNl rest <;> simp

theorem splitOnNl_last_no_nl (l : List Char) :
    '\n' ∉ ((splitOnNl l).getLast?.getD []) := by
  induction l with
  | nil => simp [splitOnNl]
  | cons c rest ih =>
    unfold splitOnNl
    by_cases hc : c = '\n'
    · simp only [hc, if_true, reduceIte]
      cases h : splitOnNl rest with
      | nil => exact absurd h (splitOnNl_ne_nil rest)
      | cons l0 ls =>
        rw [List.getLast?_cons_cons]
        rw [h] at ih
        exact ih
    · simp only [hc, if_false, reduceIte]
      cases h : splitOnNl rest with
      | nil => exact absurd h (splitOnNl_ne_nil rest)
      | cons l0 ls =>
        rw [h] at ih
        cases ls with
        | nil =>
          simp only [List.getLast?_singleton, Option.getD_some] at ih ⊢
          simp [List.mem_cons, hc]
          constructor
          · intro he; exact hc he.symm
          · exact ih
        | cons l1 ls2 =>
          rw [List.getLast?_cons_cons]
          rw [List.getLast?_cons_cons] at ih
          exact ih

theorem splitOnNl_cons_ne {c : Char} (rest : List Char) (hc : ¬ c = '\n') :
    splitOnNl (c :: rest) = (c :: (splitOnNl rest).headI) :: (splitOnNl rest).tail := by
  cases h : splitOnNl rest with
  | nil => exact absurd h (splitOnNl_ne_nil rest)
  | cons l0 ls =>
    conv_lhs => unfold splitOnNl
    simp [hc, h]

theorem splitOnNl_append_left {a : List Char} (b : List Char) (ha : '\n' ∉ a) :
    splitOnNl (a ++ b) = (a ++ (splitOnNl b).headI) :: (splitOnNl b).tail := by
  induction a with
  | nil =>
    simp only [List.nil_append]
    cases h : splitOnNl b with
    | nil => exact absurd h (splitOnNl_ne_nil b)
    | cons l0 ls => simp
  | cons c a2 ih =>
    have hc : ¬ c = '\n' := by
      intro he; exact ha (by simp [he])
    have ha2 : '\n' ∉ a2 := by
      intro hm; exact ha (by simp [hm])
    rw [List.cons_append, splitOnNl_cons_ne _ hc, ih ha2]
    simp

theorem splitOnNl_no_nl {l : List Char} (h : '\n' ∉ l) : splitOnNl l = [l] := by
  have := splitOnNl_append_left [] h
  simp only [List.append_nil] at this
  simpa [splitOnNl] using this

theorem processChunk_no_nl (parse : List Char → Option Payload)
    (buf chunk : List Char) (h : '\n' ∉ buf ++ chunk) :
    processChunk parse buf chunk = (buf ++ chunk, []) := by
  unfold processChunk processBuffer
  rw [splitOnNl_no_nl h]
  simp

theorem streamEvents_single (parse : List Char → Option Payload) (c : List Char) :
    streamEvents parse (c :: []) = (processBuffer parse c).2 := by
  simp [streamEvents, processStream, processChunk]

theorem processBuffer_line_nl (parse : List Char → Option Payload)
    (a : List Char) (ha : '\n' ∉ a) :
    processBuffer parse (a ++ ('\n' :: [])) = ([], (procLine parse (none, []) a).2) := by
  unfold processBuffer
  rw [splitOnNl_append_left _ ha]
  simp [splitOnNl]

/-- C6: appending a chunk to the residual buffer parses only the complete
line segments: a newline-free chunk is wholly retained in the residual
buffer and emits nothing; delivering a newline-free fragment and its
completion in two chunks produces exactly the residual buffer and the
emission sequence of delivering them as one chunk, so the split line is
parsed exactly once, after it is completed; and the retained residual
buffer never contains a line terminator, so it is never a complete
line. -/
theorem c6_residual_buffer_discipline :
    (∀ (parse : List Char → Option Payload) (buf chunk : List Char),
        '\n' ∉ buf → '\n' ∉ chunk →
        processChunk parse buf chunk = (buf ++ chunk, [])) ∧
    (∀ (parse : List Char → Option Payload) (buf c1 c2 : List Char),
        '\n' ∉ buf → '\n' ∉ c1 →
        ((processChunk parse (processChunk parse buf c1).1 c2).1,
          (processChunk parse buf c1).2 ++
            (processChunk parse (processChunk parse buf c1).1 c2).2) =
          processChunk parse buf (c1 ++ c2)) ∧
    (∀ (parse : List Char → Option Payload) (buf chunk : List Char),
        '\n' ∉ (processChunk parse buf chunk).1) := by
  refine ⟨?_, ?_, ?_⟩
  · intro parse buf chunk hb hc
    apply processChunk_no_nl
    intro hm
    rcases List.mem_append.mp hm with h | h
    · exact hb h
    · exact hc h
  · intro parse buf c1 c2 hb hc1
    have hbc : '\n' ∉ buf ++ c1 := by
      intro hm
      rcases List.mem_append.mp hm with h | h
      · exact hb h
      · exact hc1 h
    rw [processChunk_no_nl parse buf c1 hbc]
    simp only [List.nil_append]
    unfold processChunk
    rw [List.append_assoc]
  · intro parse buf chunk
    unfold processChunk processBuffer
    exact splitOnNl_last_no_nl (buf ++ chunk)

/-- C6 witness: a concrete newline-free chunk is retained unparsed. -/
theorem c6_residual_buffer_discipline_witness :
    processChunk parseData ("ab".data) ("cd".data) = ("ab".data ++ "cd".data, []) :=
  c6_residual_buffer_discipline.1 parseData ("ab".data) ("cd".data)
    (by decide) (by decide)

/-- C7: the pending event label is cleared by each emitted event (the
post-emission label state is none), a data line emitted with no pending
label is tagged by payload-shape inference, an event-label line itself
emits nothing, and a stream consisting of a single label line emits no
event at all. -/
theorem c7_pending_label_lifecycle :
    (∀ (parse : List Char → Option Payload)
        (st : Option String × List (String × Payload)) (line : List Char),
        ("event: ".data).isPrefixOf line = true →
        (procLine parse st line).2 = st.2) ∧
    (∀ (parse : List Char → Option Payload)
        (st : Option String × List (String × Payload)) (line : List Char) (d : Payload),
        ("data: ".data).isPrefixOf line = true →
        jsTrim (line.drop 6) ≠ [] →
        parse (jsTrim (line.drop 6)) = some d →
        procLine parse st line = (none, st.2 ++ [(resolveTag st.1 d, d)])) ∧
    (∀ d : Payload, resolveTag none d = inferTag d) ∧
    (∀ (parse : List Char → Option Payload) (s : List Char), '\n' ∉ s →
        streamEvents parse ((("event: ".data) ++ s ++ ('\n' :: [])) :: []) = []) := by
  refine ⟨?_, ?_, ?_, ?_⟩
  · intro parse st line h
    rw [procLine_event parse st line h]
  · intro parse st line d hpre hne hp
    obtain ⟨t, rfl⟩ := isPrefixOf_exists hpre
    rw [drop_six_data] at hne hp
    exact procLine_data_some parse st t d hne hp
  · intro d
    rfl
  · intro parse s hs
    have hens : '\n' ∉ ("event: ".data) ++ s := by
      intro hm
      rcases List.mem_append.mp hm with h | h
      · revert h; decide
      · exact hs h
    have hassoc : ("event: ".data) ++ s ++ ('\n' :: []) =
        (("event: ".data) ++ s) ++ ('\n' :: []) := by
      rw [List.append_assoc]
    rw [streamEvents_single, hassoc, processBuffer_line_nl parse _ hens,
      procLine_event parse _ _ (ev_prefix_append s)]

/-- C7 witness: a concrete lone label line emits nothing. -/
theorem c7_pending_label_lifecycle_witness :
    streamEvents parseData ((("event: ".data) ++ ("sql".data) ++ ('\n' :: [])) :: []) = [] :=
  c7_pending_label_lifecycle.2.2.2 parseData ("sql".data) (by decide)

/-- C3: a data line whose payload fails to deserialize is dropped with no
emitted event and no state change, so processing the remaining lines
continues exactly as if the malformed frame were absent; in particular it
never terminates the fold over the lines. -/
theorem c3_malformed_frame_skipped :
    ∀ (parse : List Char → Option Payload)
      (st : Option String × List (String × Payload)) (line : List Char)
      (rest : List (List Char)),
      ("data: ".data).isPrefixOf line = true →
      parse (jsTrim (line.drop 6)) = none →
      List.foldl (procLine parse) st (line :: rest) =
        List.foldl (procLine parse) st rest := by
  intro parse st line rest hpre hp
  obtain ⟨t, rfl⟩ := isPrefixOf_exists hpre
  rw [drop_six_data] at hp
  rw [List.foldl_cons, procLine_data_stuck parse st t hp]

/-- C3 witness: a concrete malformed frame is skipped and the following
well-formed frame is still processed identically. -/
theorem c3_malformed_frame_skipped_witness :
    List.foldl (procLine parseData) (none, ([] : List (String × Payload)))
        (("data: notjson".data) :: ("data: \x7b\"sql\":\"SELECT 1;\"\x7d".data) :: []) =
      List.foldl (procLine parseData) (none, ([] : List (String × Payload)))
        (("data: \x7b\"sql\":\"SELECT 1;\"\x7d".data) :: []) :=
  c3_malformed_frame_skipped parseData (none, [])
    ("data: notjson".data) (("data: \x7b\"sql\":\"SELECT 1;\"\x7d".data) :: [])
    (by decide) (by decide)

/-- C1: the claim fails on the code; this theorem evaluates the parser at
the failing input.  The SSE text consisting of an event label line
followed by a data line yields the labelled tag when delivered as one
chunk, but yields the inferred tag delta when the two lines arrive in
different chunks, because the pending label variable is re-initialized at
every chunk (it is declared inside the read loop); so the two deliveries
dispatch different event sequences. -/
theorem c1_label_lost_across_chunk_boundary :
    streamEvents parseData
        (("event: done\ndata: \x7b\"textDelta\":\"hi\"\x7d\n").data :: []) =
      (("done", ({ textDelta := some "hi" } : Payload)) :: []) ∧
    streamEvents parseData
        (("event: done\n").data :: ("data: \x7b\"textDelta\":\"hi\"\x7d\n").data :: []) =
      (("delta", ({ textDelta := some "hi" } : Payload)) :: []) ∧
    streamEvents parseData
        (("event: done\ndata: \x7b\"textDelta\":\"hi\"\x7d\n").data :: []) ≠
      streamEvents parseData
        (("event: done\n").data :: ("data: \x7b\"textDelta\":\"hi\"\x7d\n").data :: []) := by
  refine ⟨by decide, by decide, by decide⟩

/-- C2 counterexample: a payload whose message field is present but empty
has, per the claim's presence-based precedence, the tag error, yet the
code dispatches delta for it (the code tests message for JS truthiness,
not presence). -/
theorem c2_presence_precedence_refuted :
    streamEvents parseData (("data: \x7b\"message\":\"\"\x7d\n").data :: []) =
      (("delta", ({ message := some "" } : Payload)) :: []) ∧
    specInferTag { message := some "" } = "error" ∧
    ("delta" : String) ≠ "error" := by
  refine ⟨by decide, by decide, by decide⟩

/-- C2 amended: for a successfully deserialized data payload with no
pending label the emitted tag is inferTag of the payload, and inferTag
follows the fixed precedence with JS truthiness: finalText present gives
done; else message non-empty with textDelta absent-or-empty gives error;
else sql present with textDelta absent gives sql; else name and status
both non-empty give tool; else usedChars present gives context; else
newChatId non-empty gives chat_rollover; else delta; in particular a
payload with both finalText and message present gives done. -/
theorem c2_truthiness_precedence :
    (∀ (parse : List Char → Option Payload) (out : List (String × Payload))
        (line : List Char) (d : Payload),
        ("data: ".data).isPrefixOf line = true →
        jsTrim (line.drop 6) ≠ [] →
        parse (jsTrim (line.drop 6)) = some d →
        (procLine parse (none, out) line).2 = out ++ [(inferTag d, d)]) ∧
    (∀ d : Payload, d.finalText.isSome = true → inferTag d = "done") ∧
    (∀ d : Payload, d.finalText = none →
        (truthy d.message && !(truthy d.textDelta)) = true →
        inferTag d = "error") ∧
    (∀ d : Payload, d.finalText = none →
        (truthy d.message && !(truthy d.textDelta)) = false →
        (d.sql.isSome && d.textDelta.isNone) = true →
        inferTag d = "sql") ∧
    (∀ d : Payload, d.finalText = none →
        (truthy d.message && !(truthy d.textDelta)) = false →
        (d.sql.isSome && d.textDelta.isNone) = false →
        (truthy d.name && truthy d.status) = true →
        inferTag d = "tool") ∧
    (∀ d : Payload, d.finalText = none →
        (truthy d.message && !(truthy d.textDelta)) = false →
        (d.sql.isSome && d.textDelta.isNone) = false →
        (truthy d.name && truthy d.status) = false →
        d.usedChars.isSome = true →
        inferTag d = "context") ∧
    (∀ d : Payload, d.finalText = none →
        (truthy d.message && !(truthy d.textDelta)) = false →
        (d.sql.isSome && d.textDelta.isNone) = false →
        (truthy d.name && truthy d.status) = false →
        d.usedChars.isSome = false →
        truthy d.newChatId = true →
        inferTag d = "chat_rollover") ∧
    (∀ d : Payload, d.finalText = none →
        (truthy d.message && !(truthy d.textDelta)) = false →
        (d.sql.isSome && d.textDelta.isNone) = false →
        (truthy d.name && truthy d.status) = false →
        d.usedChars.isSome = false →
        truthy d.newChatId = false →
        inferTag d = "delta") ∧
    (∀ d : Payload, d.finalText.isSome = true → d.message.isSome = true →
        inferTag d = "done") := by
  refine ⟨?_, ?_, ?_, ?_, ?_, ?_, ?_, ?_, ?_⟩
  · intro parse out line d hpre hne hp
    obtain ⟨t, rfl⟩ := isPrefixOf_exists hpre
    rw [drop_six_data] at hne hp
    rw [procLine_data_some parse (none, out) t d hne hp]
    rfl
  · intro d h
    simp [inferTag, h]
  · intro d h1 h2
    simp [inferTag, h1, h2]
  · intro d h1 h2 h3
    simp [inferTag, h1, h2, h3]
  · intro d h1 h2 h3 h4
    simp [inferTag, h1, h2, h3, h4]
  · intro d h1 h2 h3 h4 h5
    simp [inferTag, h1, h2, h3, h4, h5]
  · intro d h1 h2 h3 h4 h5 h6
    simp [inferTag, h1, h2, h3, h4, h5, h6]
  · intro d h1 h2 h3 h4 h5 h6
    simp [inferTag, h1, h2, h3, h4, h5, h6]
  · intro d h1 h2
    simp [inferTag, h1]

/-- C2 witness: a concrete unlabelled frame with a non-empty message and
no textDelta is emitted with the inferred tag, and that tag is error. -/
theorem c2_truthiness_precedence_witness :
    (procLine parseData (none, ([] : List (String × Payload)))
        (("data: ".data) ++ ("\x7b\"message\":\"x\"\x7d").data)).2 =
      [] ++ [(inferTag { message := some "x" }, ({ message := some "x" } : Payload))] ∧
    inferTag { message := some "x" } = "error" :=
  ⟨c2_truthiness_precedence.1 parseData []
      (("data: ".data) ++ ("\x7b\"message\":\"x\"\x7d").data) { message := some "x" }
      (dp_prefix_append _) (by decide) (by decide),
   c2_truthiness_precedence.2.2.1 { message := some "x" } rfl (by decide)⟩

/-- C4 counterexample: with a healthy response and a normally completed
loop, an error raised by reader.releaseLock() becomes the terminal error
of the whole call: it propagates past the cleanup boundary instead of
being swallowed. -/
theorem c4_release_error_propagates :
    (streamAgentResponse parseData true 200 true [] none (some "release failed")).terminal =
      some "release failed" ∧
    (streamAgentResponse parseData true 200 true [] none (some "release failed")).terminal ≠
      none := by
  refine ⟨rfl, by decide⟩

/-- C4 amended: whenever the reader was acquired (ok response with a
body), releaseLock is invoked on every exit path of the loop — normal end
or read error, any prefix of reads consumed; if the release step raises
no error the call's terminal outcome is the loop's own (the read error or
normal completion), but if the release step raises, that error replaces
the outcome and propagates to the caller. -/
theorem c4_release_always_invoked :
    ∀ (parse : List Char → Option Payload) (status : Nat) (chunks : List (List Char))
      (readErr releaseErr : Option String),
      (streamAgentResponse parse true status true chunks readErr releaseErr).releaseCalled
        = true ∧
      (releaseErr = none →
        (streamAgentResponse parse true status true chunks readErr releaseErr).terminal
          = readErr) ∧
      (∀ e, releaseErr = some e →
        (streamAgentResponse parse true status true chunks readErr releaseErr).terminal
          = some e) := by
  intro parse status chunks readErr releaseErr
  refine ⟨rfl, ?_, ?_⟩
  · intro h
    subst h
    rfl
  · intro e h
    subst h
    rfl

/-- C4 witness: on a read error with a well-behaved release, the lock is
released and the read error is the terminal outcome. -/
theorem c4_release_always_invoked_witness :
    (streamAgentResponse parseData true 200 true [] (some "net reset") none).terminal =
      some "net reset" :=
  (c4_release_always_invoked parseData 200 [] (some "net reset") none).2.1 rfl

/-- C5: a non-ok transport response or a missing response body makes the
stream call fail as a whole before any event is yielded: the event list
is empty and a terminal error is present. -/
theorem c5_transport_failure_no_events :
    ∀ (parse : List Char → Option Payload) (respOk : Bool) (status : Nat)
      (hasBody : Bool) (chunks : List (List Char)) (readErr releaseErr : Option String),
      respOk = false ∨ hasBody = false →
      (streamAgentResponse parse respOk status hasBody chunks readErr releaseErr).events
        = [] ∧
      (streamAgentResponse parse respOk status hasBody chunks readErr
        releaseErr).terminal.isSome = true := by
  intro parse respOk status hasBody chunks readErr releaseErr h
  rcases h with h | h
  · subst h
    exact ⟨rfl, rfl⟩
  · subst h
    cases respOk
    · exact ⟨rfl, rfl⟩
    · exact ⟨rfl, rfl⟩

/-- C5 witness: a concrete non-ok response yields no events and a
terminal error. -/
theorem c5_transport_failure_no_events_witness :
    (streamAgentResponse parseData false 500 true [] none none).events = [] ∧
    (streamAgentResponse parseData false 500 true [] none none).terminal.isSome = true :=
  c5_transport_failure_no_events parseData false 500 true [] none none (Or.inl rfl)

theorem countP_applyToolEvent_le (l : List ToolStatus) (ts : ToolStatus) (n : String)
    (h : (l.countP fun t => t.name == n) ≤ 1) :
    ((applyToolEvent l ts).countP fun t => t.name == n) ≤ 1 := by
  unfold applyToolEvent
  rw [List.countP_append]
  by_cases hn : ts.name = n
  · have hzero :
        ((l.filter fun t => t.name != ts.name).countP fun t => t.name == n) = 0 := by
      rw [List.countP_eq_zero]
      intro a ha
      have hne := (List.mem_filter.mp ha).2
      rw [bne_iff_ne] at hne
      simp only [beq_iff_eq]
      intro he
      exact hne (he.trans hn.symm)
    rw [hzero]
    simp [List.countP_cons, hn]
  · have hone : ((ts :: []).countP fun t => t.name == n) = 0 := by
      simp [List.countP_cons, hn]
    rw [hone]
    have hle : ((l.filter fun t => t.name != ts.name).countP fun t => t.name == n) ≤
        (l.countP fun t => t.name == n) := by
      rw [List.countP_filter]
      apply List.countP_mono_left
      intro x hx hpx
      exact ((Bool.and_eq_true _ _).mp hpx).1
    omega

theorem countP_foldl_tool (evs : List ToolStatus) (acc : List ToolStatus) (n : String)
    (h : (acc.countP fun t => t.name == n) ≤ 1) :
    ((evs.foldl applyToolEvent acc).countP fun t => t.name == n) ≤ 1 := by
  induction evs generalizing acc with
  | nil => simpa using h
  | cons e rest ih =>
    rw [List.foldl_cons]
    exact ih _ (countP_applyToolEvent_le acc e n h)

/-- C8: applying a tool event replaces any same-name entry instead of
adding a second one (any entry of the result bearing the event's name is
the event's own entry), so after any sequence of tool events the visible
set holds at most one entry per tool name; a start-status event schedules
no removal (the entry persists until replaced), while a done or error
status schedules removal 2000 ms after arrival; and a fired removal drops
exactly the entries carrying the scheduled timestamp. -/
theorem c8_tool_status_invariants :
    (∀ (evs : List ToolStatus) (n : String),
        ((evs.foldl applyToolEvent []).countP fun t => t.name == n) ≤ 1) ∧
    (∀ (prev : List ToolStatus) (ts t : ToolStatus),
        t ∈ applyToolEvent prev ts → t.name = ts.name → t = ts) ∧
    (∀ (now : Nat) (ts : ToolStatus), ts.status = "start" →
        toolRemovalSchedule now ts = none) ∧
    (∀ (now : Nat) (ts : ToolStatus), ts.status = "done" ∨ ts.status = "error" →
        toolRemovalSchedule now ts = some (now + 2000)) ∧
    (∀ (cur : List ToolStatus) (stamp : Nat) (t : ToolStatus),
        t ∈ fireToolRemoval cur stamp ↔ t ∈ cur ∧ t.timestamp ≠ stamp) := by
  refine ⟨?_, ?_, ?_, ?_, ?_⟩
  · intro evs n
    exact countP_foldl_tool evs [] n (by simp)
  · intro prev ts t ht hname
    unfold applyToolEvent at ht
    rcases List.mem_append.mp ht with h | h
    · have hne := (List.mem_filter.mp h).2
      rw [bne_iff_ne] at hne
      exact absurd hname hne
    · simpa using h
  · intro now ts h
    simp [toolRemovalSchedule, h]
  · intro now ts h
    rcases h with h | h <;> simp [toolRemovalSchedule, h]
  · intro cur stamp t
    simp [fireToolRemoval, List.mem_filter, bne_iff_ne]

/-- C8 witness: concrete scheduling decisions for done and start. -/
theorem c8_tool_status_invariants_witness :
    toolRemovalSchedule 100 { name := "t", status := "done", timestamp := 7 } = some 2100 ∧
    toolRemovalSchedule 100 { name := "t", status := "start", timestamp := 7 } = none :=
  ⟨c8_tool_status_invariants.2.2.2.1 100 { name := "t", status := "done", timestamp := 7 }
      (Or.inl rfl),
   c8_tool_status_invariants.2.2.1 100 { name := "t", status := "start", timestamp := 7 } rfl⟩

theorem setLastText_dropLast (ms : List Message) (t : String) :
    (setLastText ms t).dropLast = ms.dropLast := by
  induction ms with
  | nil => rfl
  | cons m rest ih =>
    cases rest with
    | nil => rfl
    | cons m2 rest2 =>
      have hshape : setLastText (m :: m2 :: rest2) t = m :: setLastText (m2 :: rest2) t := rfl
      rw [hshape]
      cases hs : setLastText (m2 :: rest2) t with
      | nil => cases rest2 <;> simp [setLastText] at hs
      | cons x xs =>
        rw [List.dropLast_cons₂, List.dropLast_cons₂, ← hs, ih]

theorem setLastText_text_getLast (ms : List Message) (t : String) (h : ms ≠ []) :
    ((setLastText ms t).map Message.text).getLast? = some t := by
  induction ms with
  | nil => exact absurd rfl h
  | cons m rest ih =>
    cases rest with
    | nil => rfl
    | cons m2 rest2 =>
      have hshape : setLastText (m :: m2 :: rest2) t = m :: setLastText (m2 :: rest2) t := rfl
      rw [hshape, List.map_cons]
      cases hs : (setLastText (m2 :: rest2) t).map Message.text with
      | nil => cases rest2 <;> simp [setLastText] at hs
      | cons x xs =>
        rw [List.getLast?_cons_cons, ← hs]
        exact ih (by simp)

/-- C9: a delta event carrying fullText replaces the trailing message
text with the trimmed fullText exactly when the trimmed new text or the
previously accumulated text is non-empty — the trailing text becomes the
trimmed fullText and the transcript prefix is untouched — and when both
are empty the transcript and accumulator are left unchanged. -/
theorem c9_delta_replacement_iff :
    ∀ (ms : List Message) (l ft : String),
      ((strTrim ft = "" ∧ l = "") → applyDelta ms l ft = (ms, l)) ∧
      ((strTrim ft ≠ "" ∨ l ≠ "") →
        (applyDelta ms l ft).2 = strTrim ft ∧
        ((applyDelta ms l ft).1).dropLast = ms.dropLast ∧
        (ms ≠ [] →
          (((applyDelta ms l ft).1).map Message.text).getLast? = some (strTrim ft))) := by
  intro ms l ft
  constructor
  · rintro ⟨h1, h2⟩
    show (if strTrim ft ≠ "" ∨ l ≠ "" then (setLastText ms (strTrim ft), strTrim ft)
          else (ms, l)) = (ms, l)
    rw [if_neg (by simp [h1, h2])]
  · intro h
    have heq : applyDelta ms l ft = (setLastText ms (strTrim ft), strTrim ft) := by
      show (if strTrim ft ≠ "" ∨ l ≠ "" then (setLastText ms (strTrim ft), strTrim ft)
            else (ms, l)) = _
      rw [if_pos h]
    rw [heq]
    exact ⟨rfl, setLastText_dropLast ms (strTrim ft),
      fun hne => setLastText_text_getLast ms (strTrim ft) hne⟩

/-- C9 witness: a concrete non-empty trimmed delta replaces the trailing
text with the trimmed value. -/
theorem c9_delta_replacement_iff_witness :
    (applyDelta (({ role := "model", text := "old" } : Message) :: []) "" " hi ").2 =
      strTrim " hi " :=
  ((c9_delta_replacement_iff (({ role := "model", text := "old" } : Message) :: [])
      "" " hi ").2 (Or.inl (by decide))).1

/-- C10: executeSql is total by construction in this model (it returns an
ExecutionResult for every config, query and environment outcome); with a
missing (empty) project ref or access token it returns the fixed
missing-credentials failure without issuing a network request; and every
rejected fetch, body-deserialization failure, and non-2xx response
resolves to a success=false result. -/
theorem c10_executeSql_guard_and_error_conversion :
    (∀ (config : SupabaseConfig) (q : String) (outcome : HttpOutcome),
        config.projectRef = "" ∨ config.accessToken = "" →
        executeSql config q outcome =
          ({ success := false, message := missingCredsMsg }, false)) ∧
    (∀ (config : SupabaseConfig) (q m : String),
        (executeSql config q (HttpOutcome.netFail m)).1.success = false) ∧
    (∀ (config : SupabaseConfig) (q em : String) (ok : Bool) (status : Nat),
        (executeSql config q (HttpOutcome.resp ok status (Except.error em))).1.success
          = false) ∧
    (∀ (config : SupabaseConfig) (q : String) (status : Nat) (b : SqlRespBody),
        (executeSql config q (HttpOutcome.resp false status (Except.ok b))).1.success
          = false) := by
  refine ⟨?_, ?_, ?_, ?_⟩
  · intro config q outcome h
    unfold executeSql
    rw [if_pos h]
  · intro config q m
    unfold executeSql
    by_cases h : config.projectRef = "" ∨ config.accessToken = ""
    · rw [if_pos h]
    · rw [if_neg h]
  · intro config q em ok status
    unfold executeSql
    by_cases h : config.projectRef = "" ∨ config.accessToken = ""
    · rw [if_pos h]
    · rw [if_neg h]
  · intro config q status b
    unfold executeSql
    by_cases h : config.projectRef = "" ∨ config.accessToken = ""
    · rw [if_pos h]
    · rw [if_neg h]
      rfl

/-- C10 witness: an empty project ref short-circuits with the fixed
message and no network request. -/
theorem c10_executeSql_guard_witness :
    executeSql { projectRef := "", accessToken := "tok" } "q1" (HttpOutcome.netFail "boom") =
      ({ success := false, message := missingCredsMsg }, false) :=
  c10_executeSql_guard_and_error_conversion.1
    { projectRef := "", accessToken := "tok" } "q1" (HttpOutcome.netFail "boom") (Or.inl rfl)
